import Mathlib

/-!
Verification of the pitching-dashboard data pipeline
(`Pitcher_Dashboard.py`) against its natural-language specification.

The Python source is a pandas/streamlit script.  We embed the data
pipeline shallowly:

* a raw CSV table (`RawTable`) is a header (list of column names)
  together with rows of optional string cells (`none` models a
  missing cell / NaN produced by `pd.read_csv`);
* `dropAllNACols` models `DataFrame.dropna(axis=1, how="all")`;
* `projectColumns` models the column projection `pitching[[...]]`,
  which raises a `KeyError` when a requested column is absent — we
  model the raised exception with `Except.error`;
* typed rows (`Row0` raw, `RowC` coerced, `Row` with the derived
  per-day pitch number) model the normalized records; the external
  coercion routines `pd.to_datetime(errors="coerce").dt.strftime`
  and `pd.to_numeric(errors="coerce")` are passed in as parameters
  `parse : String → Option String` and `pnum : String → Option Rat`,
  both returning `none` on unparseable input;
* `assignPN` models `groupby("Date").cumcount() + 1`: positional
  counting within each date group, with rows whose group key is
  missing (NaN date) receiving a missing count, exactly as pandas
  excludes NaN keys from `groupby` and reindexes with NaN;
* the sidebar filters and the velocity-slider bound computation
  (`int(min)` / `int(max)`, which raises `ValueError` on an empty or
  all-NaN column) are modelled by `applyDateDefault`,
  `applyTypeFilter`, `velocityBounds` and `velocityStep`;
* the summary statistics `groupby("Pitch Type").agg(["mean","std","max"]).round(1)`
  are modelled by `aggMean`, `aggStd`, `aggMax` over the non-missing
  values of each group, with pandas sample standard deviation
  (`ddof = 1`, missing for fewer than two present values) and
  numpy round-half-to-even rounding;
* the per-day peak-pitch annotation
  (`sort_values(["Date","Pitch Number"])` followed by
  `Series.idxmax`, which returns the first position attaining the
  maximum) is modelled by `sortByPN` and `idxmaxVel`.

Machine floats are idealized as exact rationals (reals where a square
root occurs); pandas cell-level missing values are `Option`.
-/

/-! ### Raw CSV layer -/

/-- A raw parsed CSV table: column names plus rows of optional cells.
`none` is a missing cell (NaN). -/
structure RawTable where
  cols : List String
  rows : List (List (Option String))
deriving DecidableEq

/-- Cell of a raw row at column index `j`; absent trailing cells are
missing, as `pd.read_csv` pads short rows with NaN. -/
def cellAt (row : List (Option String)) (j : Nat) : Option String :=
  row.getD j none

/-- Column `j` holds no non-missing value in any row
(the `how="all"` test of `dropna(axis=1, how="all")`). -/
def colAllNA (t : RawTable) (j : Nat) : Bool :=
  t.rows.all (fun row => (cellAt row j).isNone)

/-- `pitching.dropna(axis=1, how="all")`: removes every column whose
values are all missing. -/
def dropAllNACols (t : RawTable) : RawTable :=
  let keep := (List.range t.cols.length).filter (fun j => !(colAllNA t j))
  ⟨keep.map (fun j => t.cols.getD j ""),
   t.rows.map (fun row => keep.map (fun j => cellAt row j))⟩

/-- The eighteen required columns, in the fixed projection order of the
source. -/
def requiredColumns : List String :=
  ["No", "Date", "Pitch Type", "Is Strike", "Strike Zone Side", "Strike Zone Height",
   "Velocity", "Total Spin", "Spin Efficiency (release)", "Spin Direction",
   "HB (trajectory)", "VB (spin)", "Horizontal Angle", "Release Angle",
   "Release Height", "Release Side", "Gyro Degree (deg)", "Release Extension (ft)"]

/-- `pitching[[names...]]`: select the named columns in the given order.
pandas raises `KeyError` when a requested column is not in the frame;
the raised exception is modelled as `Except.error`. -/
def projectColumns (names : List String) (t : RawTable) : Except String RawTable :=
  if names.all (fun n => t.cols.contains n) then
    .ok ⟨names, t.rows.map (fun row => names.map (fun n => cellAt row (t.cols.indexOf n)))⟩
  else
    .error "KeyError: required columns not in index"

/-- Lines 63-71 of the source: drop all-empty columns, then project the
eighteen required columns. -/
def loadProject (t : RawTable) : Except String RawTable :=
  projectColumns requiredColumns (dropAllNACols t)

/-! ### Typed rows and normalization

Only the fields the verified claims mention are carried
(`Date`, `Pitch Type`, `Velocity`, `HB (trajectory)`, `VB (spin)`);
the remaining numeric columns are coerced cell-for-cell exactly like
`Velocity` and play no role in any claim. -/

/-- A projected raw record (all cells still raw strings, `none` = NaN). -/
structure Row0 where
  dateRaw : Option String
  pitchType : Option String
  velRaw : Option String
  hbRaw : Option String
  vbRaw : Option String
deriving DecidableEq

/-- A record after date coercion (lines 73-74), numerics still raw. -/
structure RowD where
  date : Option String
  pitchType : Option String
  velRaw : Option String
  hbRaw : Option String
  vbRaw : Option String
deriving DecidableEq

/-- A record after numeric coercion (line 83). -/
structure RowC where
  date : Option String
  pitchType : Option String
  velocity : Option Rat
  hb : Option Rat
  vb : Option Rat
deriving DecidableEq

/-- A normalized record: coerced fields plus the derived per-day pitch
number (line 84).  `pitchNumber = none` models the NaN that
`groupby("Date").cumcount()` leaves on rows whose date is missing. -/
structure Row extends RowC where
  pitchNumber : Option Nat
deriving DecidableEq

/-- Date coercion, lines 73-74: `pd.to_datetime(errors="coerce")`
followed by `strftime`; the external tolerant parser-formatter is the
parameter `parse`, `none` on failure, and a missing cell stays missing. -/
def dateCoerce (parse : String → Option String) (r : Row0) : RowD :=
  ⟨r.dateRaw.bind parse, r.pitchType, r.velRaw, r.hbRaw, r.vbRaw⟩

/-- Numeric coercion, line 83: `pd.to_numeric(errors="coerce")` applied
cell-wise; the external numeric parser is the parameter `pnum`. -/
def numCoerce (pnum : String → Option Rat) (r : RowD) : RowC :=
  ⟨r.date, r.pitchType, r.velRaw.bind pnum, r.hbRaw.bind pnum, r.vbRaw.bind pnum⟩

/-- Line 84, `groupby("Date").cumcount() + 1`: each row receives one
plus the number of earlier rows sharing its date; a missing date is a
missing `groupby` key, so the row receives a missing count.  `seen`
accumulates the dates of the rows already numbered. -/
def assignPN (seen : List (Option String)) : List RowC → List Row
  | [] => []
  | r :: rs =>
      ⟨r, r.date.map (fun d => seen.count (some d) + 1)⟩ :: assignPN (r.date :: seen) rs

/-- Lines 73-84: date coercion, placeholder-row exclusion
(`pitching["Pitch Type"] != "-"`), numeric coercion, and per-day
sequence assignment, in source order. -/
def normalizeRows (parse : String → Option String) (pnum : String → Option Rat)
    (rows : List Row0) : List Row :=
  assignPN []
    (((rows.map (dateCoerce parse)).filter
        (fun r => decide (r.pitchType ≠ some "-"))).map (numCoerce pnum))

/-! ### Sidebar filters -/

/-- Line 89: `sorted(pitching["Date"].dropna().unique())`. -/
def uniqueDates (t : List Row) : List String :=
  List.insertionSort (fun a b : String => a ≤ b) (t.filterMap (fun r => r.date)).dedup

/-- Line 91: `pitching[pitching["Date"].isin(selected_dates)]`.
A missing date is never `isin` any selection. -/
def applyDateFilter (sel : List String) (t : List Row) : List Row :=
  t.filter (fun r => match r.date with
    | some d => sel.contains d
    | none => false)

/-- Lines 88-91 with the default widget value: when at least one date is
present the multiselect defaults to all present dates and the table is
filtered by membership; otherwise the block does not run. -/
def applyDateDefault (t : List Row) : List Row :=
  if t.any (fun r => (r.date).isSome) then applyDateFilter (uniqueDates t) t else t

/-- Line 93: `sorted(pitching["Pitch Type"].dropna().unique())`. -/
def typeOptions (t : List Row) : List String :=
  List.insertionSort (fun a b : String => a ≤ b) (t.filterMap (fun r => r.pitchType)).dedup

/-- Line 95: `pitching[pitching["Pitch Type"].isin(selected_pitch_types)]`. -/
def applyTypeFilter (sel : List String) (t : List Row) : List Row :=
  t.filter (fun r => match r.pitchType with
    | some p => sel.contains p
    | none => false)

/-- Python `int()` applied to a float: truncation toward zero. -/
def pyInt (x : Rat) : Int :=
  if 0 ≤ x then ⌊x⌋ else ⌈x⌉

/-- Line 98: `int(pitching["Velocity"].min()), int(pitching["Velocity"].max())`.
pandas `min`/`max` skip missing values; on an empty or all-missing
column they return NaN and `int(NaN)` raises `ValueError`, modelled by
`none`. -/
def velocityBounds (t : List Row) : Option (Int × Int) :=
  match t.filterMap (fun r => r.velocity) with
  | [] => none
  | v :: vs => some (pyInt (vs.foldl min v), pyInt (vs.foldl max v))

/-- Lines 100-103: the inclusive velocity-range predicate.  A missing
velocity compares false on both sides, hence is excluded. -/
def filterVelocity (lo hi : Rat) (t : List Row) : List Row :=
  t.filter (fun r => match r.velocity with
    | some v => decide (lo ≤ v) && decide (v ≤ hi)
    | none => false)

/-- Lines 97-103 with the slider at its default value `(vmin, vmax)`:
compute the integer bounds from the current table (raising on an
empty/all-missing velocity column) and filter inclusively. -/
def velocityStep (t : List Row) : Except String (List Row) :=
  match velocityBounds t with
  | none => .error "ValueError: cannot convert float NaN to integer"
  | some (lo, hi) => .ok (filterVelocity (lo : Rat) (hi : Rat) t)

/-! ### Group statistics (lines 148-154 and 202-207) -/

/-- Metric accessor for the velocity summary. -/
def velOf (r : Row) : Option Rat := r.velocity

/-- Metric accessor for the movement summary, horizontal break. -/
def hbOf (r : Row) : Option Rat := r.hb

/-- Metric accessor for the movement summary, vertical break. -/
def vbOf (r : Row) : Option Rat := r.vb

/-- The rows of one `groupby("Pitch Type")` group: rows whose pitch
type equals the key.  Rows with a missing pitch type belong to no
group. -/
def groupRows (t : List Row) (ty : String) : List Row :=
  t.filter (fun r => decide (r.pitchType = some ty))

/-- The non-missing metric values of one group: pandas aggregations
skip NaN cells. -/
def groupVals (metric : Row → Option Rat) (t : List Row) (ty : String) : List Rat :=
  (groupRows t ty).filterMap metric

/-- The `groupby("Pitch Type")` keys: sorted distinct present types. -/
def typeKeys (t : List Row) : List String := typeOptions t

/-- numpy rounding of a rational to an integer: round half to even. -/
def roundEvenQ (x : Rat) : Int :=
  if Int.fract x = 1 / 2 then 2 * round (x / 2) else round x

/-- numpy rounding of a real to an integer: round half to even. -/
noncomputable def roundEvenR (x : Real) : Int :=
  letI : Decidable (Int.fract x = 1 / 2) := Classical.propDecidable _
  if Int.fract x = 1 / 2 then 2 * round (x / 2) else round x

/-- `.round(1)` on a rational value: one decimal place, half to even. -/
def round1q (x : Rat) : Rat := (roundEvenQ (10 * x) : Rat) / 10

/-- `.round(1)` on a real value: one decimal place, half to even. -/
noncomputable def round1r (x : Real) : Real := (roundEvenR (10 * x) : Real) / 10

/-- `agg("mean").round(1)`: mean of the present values, missing when
there are none. -/
def aggMean (vs : List Rat) : Option Rat :=
  if vs.length = 0 then none else some (round1q (vs.sum / (vs.length : Rat)))

/-- `agg("max").round(1)`: maximum of the present values, missing when
there are none. -/
def aggMax (vs : List Rat) : Option Rat := vs.max?.map round1q

/-- The pandas sample variance (`ddof = 1`) of a list of values;
meaningful only when at least two values are present. -/
def sampleVar (vs : List Rat) : Rat :=
  ((vs.map (fun x => (x - vs.sum / (vs.length : Rat)) ^ 2)).sum) / ((vs.length : Rat) - 1)

/-- `agg("std").round(1)`: pandas sample standard deviation, missing
(NaN) when fewer than two values are present, never an error. -/
noncomputable def aggStd (vs : List Rat) : Option Real :=
  if vs.length ≤ 1 then none
  else some (round1r (Real.sqrt ((sampleVar vs : Rat) : Real)))

/-! ### Peak pitch per (date, pitch type) group (lines 168-190) -/

/-- Sort key for `sort_values(["Date", "Pitch Number"])` within one
date group: the pitch number (present on every row of a present-date
group). -/
def pnKey (r : Row) : Nat := r.pitchNumber.getD 0

/-- Pitch-number order on rows. -/
def pnLe (a b : Row) : Prop := pnKey a ≤ pnKey b

instance : DecidableRel pnLe := fun a b => Nat.decLe (pnKey a) (pnKey b)

instance : IsTotal Row pnLe := ⟨fun a b => Nat.le_total (pnKey a) (pnKey b)⟩

instance : IsTrans Row pnLe := ⟨fun _ _ _ h h2 => Nat.le_trans h h2⟩

/-- The rows of one (date, pitch type) group in pitch-number order.
The source sorts the whole table by `["Date", "Pitch Number"]` and then
filters to the day and the type; since every row of the group shares
the date, the group emerges in pitch-number order, which is what
sorting the filtered group by pitch number produces. -/
def sortByPN (l : List Row) : List Row := List.insertionSort pnLe l

/-- `Series.idxmax` on the velocity column of a group laid out in list
order: the first row attaining the maximum present velocity, skipping
missing values; `none` when no velocity is present (pandas raises
there, but the dashboard reaches this point only after the velocity
filter has removed all missing-velocity rows). -/
def idxmaxVel : List Row → Option Row
  | [] => none
  | r :: rs =>
    match idxmaxVel rs with
    | none => if (r.velocity).isSome then some r else none
    | some b =>
      match r.velocity, b.velocity with
      | some v, some w => if v < w then some b else some r
      | some _, none => some r
      | none, _ => some b

/-- Lines 170-183: the rows of day `d` and pitch type `ty`, in the
order the source presents them to `idxmax`. -/
def dayTypeGroup (t : List Row) (d ty : String) : List Row :=
  sortByPN (t.filter (fun r => decide (r.date = some d) && decide (r.pitchType = some ty)))

/-- Line 183: the annotated hardest pitch of a (date, pitch type)
group. -/
def peakPitch (t : List Row) (d ty : String) : Option Row :=
  idxmaxVel (dayTypeGroup t d ty)

/-! ### Auxiliary facts about the pipeline -/

/-- Sequence assignment changes no field of a record: the coerced part
of the output is the input list itself. -/
theorem assignPN_map_toRowC (seen : List (Option String)) (rs : List RowC) :
    (assignPN seen rs).map (fun r => r.toRowC) = rs := by
  induction rs generalizing seen with
  | nil => rfl
  | cons r rs ih => simp [assignPN, ih]

/-- Membership transfer through sequence assignment. -/
theorem mem_of_mem_assignPN {seen : List (Option String)} {rs : List RowC} {r : Row}
    (h : r ∈ assignPN seen rs) : r.toRowC ∈ rs := by
  rw [← assignPN_map_toRowC seen rs]
  exact List.mem_map_of_mem _ h

/-- A row whose groupby key (the date) is missing receives a missing
count from `cumcount`. -/
theorem assignPN_date_none {seen : List (Option String)} {rs : List RowC} {r : Row}
    (h : r ∈ assignPN seen rs) (hd : r.date = none) : r.pitchNumber = none := by
  induction rs generalizing seen with
  | nil => simp [assignPN] at h
  | cons c rs ih =>
    simp only [assignPN, List.mem_cons] at h
    rcases h with h | h
    · subst h
      simp only at hd
      simp [hd]
    · exact ih h

/-- The pitch numbers of the date-`d` rows produced by `cumcount`,
starting from an accumulator `seen`: the contiguous ascending run
beginning right after the count of `d` already seen. -/
theorem assignPN_filter_date (rs : List RowC) (seen : List (Option String)) (d : String) :
    ((assignPN seen rs).filter (fun r => decide (r.date = some d))).map
        (fun r => r.pitchNumber)
      = (List.range (rs.countP (fun c => decide (c.date = some d)))).map
          (fun i => some (seen.count (some d) + i + 1)) := by
  induction rs generalizing seen with
  | nil => rfl
  | cons c rs ih =>
    by_cases hc : c.date = some d
    · have hcount : (c.date :: seen).count (some d) = seen.count (some d) + 1 := by
        rw [hc, List.count_cons_self]
      have hfilter :
          ((assignPN seen (c :: rs)).filter (fun r => decide (r.date = some d)))
            = (⟨c, c.date.map (fun d0 => seen.count (some d0) + 1)⟩ : Row) ::
              ((assignPN (c.date :: seen) rs).filter (fun r => decide (r.date = some d))) := by
        simp [assignPN, List.filter_cons, hc]
      rw [hfilter, List.map_cons, ih (c.date :: seen), hcount]
      have hcnt : ((c :: rs).countP (fun c0 => decide (c0.date = some d)))
          = rs.countP (fun c0 => decide (c0.date = some d)) + 1 := by
        rw [List.countP_cons_of_pos]
        simp [hc]
      rw [hcnt, List.range_succ_eq_map, List.map_cons, List.map_map]
      congr 1
      · simp [hc]
      · apply List.map_congr_left
        intro a _
        simp [Function.comp]
        omega
    · have hcount : (c.date :: seen).count (some d) = seen.count (some d) := by
        rw [List.count_cons_of_ne]
        intro h
        exact hc h.symm
      have hfilter :
          ((assignPN seen (c :: rs)).filter (fun r => decide (r.date = some d)))
            = ((assignPN (c.date :: seen) rs).filter (fun r => decide (r.date = some d))) := by
        simp [assignPN, List.filter_cons, hc]
      have hcnt : ((c :: rs).countP (fun c0 => decide (c0.date = some d)))
          = rs.countP (fun c0 => decide (c0.date = some d)) := by
        rw [List.countP_cons_of_neg]
        simp [hc]
      rw [hfilter, ih (c.date :: seen), hcount, hcnt]

/-- Counting date-`d` rows commutes with sequence assignment. -/
theorem assignPN_countP (seen : List (Option String)) (rs : List RowC) (d : String) :
    (assignPN seen rs).countP (fun r => decide (r.date = some d))
      = rs.countP (fun c => decide (c.date = some d)) := by
  have h := assignPN_map_toRowC seen rs
  calc (assignPN seen rs).countP (fun r => decide (r.date = some d))
      = ((assignPN seen rs).map (fun r => r.toRowC)).countP
          (fun c => decide (c.date = some d)) := by
        rw [List.countP_map]; rfl
    _ = rs.countP (fun c => decide (c.date = some d)) := by rw [h]

/-! ### C6: per-day sequence invariant -/

/-- C6.  For every normalized table and every date `d`, the
`pitch_number_in_day` values of the date-`d` rows are exactly the
contiguous sequence `1..k`, where `k` is the number of date-`d` rows of
the normalized table, read off in table (original row) order; the
numbering is computed by `normalizeRows` after placeholder-type rows
have been excluded, so `k` counts only surviving rows. -/
theorem C6_day_sequence_invariant (parse : String → Option String)
    (pnum : String → Option Rat) (rows : List Row0) (d : String) :
    ((normalizeRows parse pnum rows).filter (fun r => decide (r.date = some d))).map
        (fun r => r.pitchNumber)
      = (List.range ((normalizeRows parse pnum rows).countP
          (fun r => decide (r.date = some d)))).map (fun i => some (i + 1)) := by
  rw [normalizeRows, assignPN_filter_date, assignPN_countP]
  simp

/-! ### C5: rows with unparseable dates -/

/-- C5 (amended).  A row whose date fails to parse is not dropped by
normalization — provided its pitch type is not the placeholder — but
its `pitch_number_in_day` is missing, not `1`: pandas `groupby`
excludes missing keys, so `cumcount` leaves NaN on such a row. -/
theorem C5_missing_date_row_kept_pn_missing (parse : String → Option String)
    (pnum : String → Option Rat) (rows : List Row0) (r0 : Row0)
    (h : r0 ∈ rows) (ht : r0.pitchType ≠ some "-")
    (hd : r0.dateRaw.bind parse = none) :
    ∃ r ∈ normalizeRows parse pnum rows,
      r.toRowC = numCoerce pnum (dateCoerce parse r0) ∧ r.pitchNumber = none := by
  have h1 : dateCoerce parse r0 ∈ rows.map (dateCoerce parse) :=
    List.mem_map_of_mem _ h
  have h2 : dateCoerce parse r0 ∈
      (rows.map (dateCoerce parse)).filter (fun r => decide (r.pitchType ≠ some "-")) := by
    rw [List.mem_filter]
    exact ⟨h1, by simpa [dateCoerce] using ht⟩
  have h3 : numCoerce pnum (dateCoerce parse r0) ∈
      ((rows.map (dateCoerce parse)).filter
        (fun r => decide (r.pitchType ≠ some "-"))).map (numCoerce pnum) :=
    List.mem_map_of_mem _ h2
  rw [← assignPN_map_toRowC []
    (((rows.map (dateCoerce parse)).filter
        (fun r => decide (r.pitchType ≠ some "-"))).map (numCoerce pnum))] at h3
  obtain ⟨r, hr, hrc⟩ := List.mem_map.mp h3
  refine ⟨r, hr, hrc, ?_⟩
  apply assignPN_date_none hr
  have : r.date = (numCoerce pnum (dateCoerce parse r0)).date := by rw [← hrc]
  rw [this]
  simpa [numCoerce, dateCoerce] using hd

/-! ### C7: placeholder exclusion -/

/-- C7 (amended).  Every record of the canonical table has a pitch type
different from the placeholder marker `"-"`; the source filter tests
only `!= "-"`, so this is all that is excluded (a record with an empty
or missing pitch type survives, see the counterexample). -/
theorem C7_placeholder_rows_excluded (parse : String → Option String)
    (pnum : String → Option Rat) (rows : List Row0) (r : Row)
    (h : r ∈ normalizeRows parse pnum rows) : r.pitchType ≠ some "-" := by
  have h1 := mem_of_mem_assignPN h
  obtain ⟨rd, hrd, heq⟩ := List.mem_map.mp h1
  have h2 := (List.mem_filter.mp hrd).2
  have h3 : rd.pitchType ≠ some "-" := by simpa using h2
  have h4 : r.pitchType = rd.pitchType := by
    have : r.toRowC.pitchType = (numCoerce pnum rd).pitchType := by rw [heq]
    simpa [numCoerce] using this
  rw [h4]
  exact h3

/-! ### C4: missing dates and the default date filter -/

/-- C4 (amended).  As soon as one date parses, the sidebar date filter
runs with its default selection (all present dates) and `isin` drops
every row whose date is missing; such rows are therefore excluded from
the working table — and hence from the pitch-type-only summaries
computed from it — not only from the per-day groups. -/
theorem C4_missing_date_excluded_from_view (t : List Row) (r : Row)
    (h : t.any (fun x => (x.date).isSome) = true)
    (hr : r ∈ applyDateDefault t) : r.date ≠ none := by
  rw [applyDateDefault, if_pos h] at hr
  have h2 := (List.mem_filter.mp hr).2
  intro hd
  rw [hd] at h2
  simp at h2

/-! ### C3 and C10: the velocity-range filter -/

/-- A left fold of `min` is bounded by its starting value. -/
theorem foldl_min_le_init (l : List Rat) (a : Rat) : l.foldl min a ≤ a := by
  induction l generalizing a with
  | nil => exact le_refl a
  | cons b l ih => exact le_trans (ih (min a b)) (min_le_left a b)

/-- A left fold of `min` is bounded by every element in sight. -/
theorem foldl_min_le_mem (l : List Rat) (a x : Rat) (hx : x ∈ a :: l) :
    l.foldl min a ≤ x := by
  induction l generalizing a with
  | nil =>
    rw [List.mem_singleton] at hx
    subst hx
    exact le_refl x
  | cons b l ih =>
    show l.foldl min (min a b) ≤ x
    rcases List.mem_cons.mp hx with h | h
    · subst h
      exact le_trans (foldl_min_le_init l (min x b)) (min_le_left x b)
    · rcases List.mem_cons.mp h with h2 | h2
      · subst h2
        exact le_trans (foldl_min_le_init l (min a x)) (min_le_right a x)
      · exact ih (min a b) (List.mem_cons_of_mem _ h2)

/-- A left fold of `min` returns one of the values in sight. -/
theorem foldl_min_mem (l : List Rat) (a : Rat) : l.foldl min a ∈ a :: l := by
  induction l generalizing a with
  | nil => exact List.mem_singleton.mpr rfl
  | cons b l ih =>
    show l.foldl min (min a b) ∈ a :: b :: l
    have h := ih (min a b)
    rcases List.mem_cons.mp h with h2 | h2
    · rw [h2]
      rcases min_choice a b with h3 | h3
      · rw [h3]; exact List.mem_cons_self _ _
      · rw [h3]; exact List.mem_cons_of_mem _ (List.mem_cons_self _ _)
    · exact List.mem_cons_of_mem _ (List.mem_cons_of_mem _ h2)

/-- C3 (amended).  The velocity filter is an inclusive `[min, max]`
predicate, but its bounds are the `int`-truncations of the minimum and
maximum velocity of the table it is handed — the already date- and
type-filtered view, not the unfiltered canonical table.  For
nonnegative velocities the truncated lower bound lies below every
velocity, so a row of the view passes the default filter exactly when
its velocity is at most the truncated maximum `hi`; a row whose
velocity has a fractional part above `hi` is excluded even by the
default (widest) slider range. -/
theorem C3_velocity_filter_inclusive_truncated (t : List Row) (lo hi : Int)
    (r : Row) (v : Rat) (hb : velocityBounds t = some (lo, hi))
    (hnn : ∀ r0 ∈ t, ∀ v0, r0.velocity = some v0 → 0 ≤ v0)
    (hr : r ∈ t) (hv : r.velocity = some v) :
    ((lo : Rat) ≤ v) ∧ (r ∈ filterVelocity (lo : Rat) (hi : Rat) t ↔ v ≤ (hi : Rat)) := by
  have hvmem : v ∈ t.filterMap (fun x => x.velocity) :=
    List.mem_filterMap.mpr ⟨r, hr, hv⟩
  have hlo : (lo : Rat) ≤ v := by
    rcases hcase : t.filterMap (fun x => x.velocity) with _ | ⟨v0, rest⟩
    · rw [hcase] at hvmem; simp at hvmem
    · rw [velocityBounds, hcase] at hb
      have hlo_eq : lo = pyInt (rest.foldl min v0) := by
        have hpair := Option.some.inj hb
        exact ((Prod.ext_iff.mp hpair).1).symm
      have hmmem : rest.foldl min v0 ∈ t.filterMap (fun x => x.velocity) := by
        rw [hcase]; exact foldl_min_mem rest v0
      obtain ⟨rm, hrm, hrmv⟩ := List.mem_filterMap.mp hmmem
      have hm0 : 0 ≤ rest.foldl min v0 := hnn rm hrm _ hrmv
      have hml : rest.foldl min v0 ≤ v := by
        rw [hcase] at hvmem
        exact foldl_min_le_mem rest v0 v hvmem
      rw [hlo_eq, pyInt, if_pos hm0]
      calc ((⌊rest.foldl min v0⌋ : Int) : Rat) ≤ rest.foldl min v0 := Int.floor_le _
        _ ≤ v := hml
  refine ⟨hlo, ?_⟩
  constructor
  · intro hmem
    have h2 := (List.mem_filter.mp hmem).2
    rw [hv] at h2
    simp at h2
    exact h2.2
  · intro hhi
    rw [filterVelocity, List.mem_filter]
    refine ⟨hr, ?_⟩
    rw [hv]
    simp
    exact ⟨hlo, hhi⟩

/-- C10.  The velocity-range predicate compares a missing velocity
false on both sides, so every filtered row has a present velocity; in
particular on a table containing a missing-velocity row the filter is
never the identity, whatever bounds are used — including the default
bounds equal to the table's own minimum and maximum. -/
theorem C10_velocity_filter_drops_missing (lo hi : Rat) (t : List Row)
    (h : ∃ r ∈ t, r.velocity = none) :
    (∀ r ∈ filterVelocity lo hi t, r.velocity ≠ none) ∧ filterVelocity lo hi t ≠ t := by
  have hall : ∀ r ∈ filterVelocity lo hi t, r.velocity ≠ none := by
    intro r hr hnone
    have h2 := (List.mem_filter.mp hr).2
    rw [hnone] at h2
    simp at h2
  refine ⟨hall, ?_⟩
  intro heq
  obtain ⟨r0, hr0, hnone⟩ := h
  exact hall r0 (heq.symm ▸ hr0) hnone

/-! ### C9: peak-pitch selection -/

/-- When `idxmax` finds nothing, every velocity of the group is
missing. -/
theorem idxmaxVel_eq_none {l : List Row} (h : idxmaxVel l = none) :
    ∀ r ∈ l, r.velocity = none := by
  induction l with
  | nil => intro r hr; simp at hr
  | cons r rs ih =>
    intro x hx
    rcases hm : idxmaxVel rs with _ | b
    · rcases hrv : r.velocity with _ | v
      · rcases List.mem_cons.mp hx with h2 | h2
        · rw [h2]; exact hrv
        · exact ih hm x h2
      · rw [idxmaxVel] at h
        simp [hm, hrv] at h
    · rw [idxmaxVel] at h
      rcases hrv : r.velocity with _ | v
      · simp [hm, hrv] at h
      · rcases hbv : b.velocity with _ | w
        · simp [hm, hrv, hbv] at h
        · by_cases hvw : v < w <;> simp [hm, hrv, hbv, hvw] at h

/-- The selected peak row belongs to the group. -/
theorem idxmaxVel_mem {l : List Row} {b : Row} (h : idxmaxVel l = some b) : b ∈ l := by
  induction l with
  | nil => simp [idxmaxVel] at h
  | cons r rs ih =>
    rw [idxmaxVel] at h
    rcases hm : idxmaxVel rs with _ | b0 <;> rw [hm] at h <;> dsimp only at h
    · rcases hrv : r.velocity with _ | v <;> rw [hrv] at h
      · simp at h
      · simp at h
        subst h
        exact List.mem_cons_self _ _
    · rcases hrv : r.velocity with _ | v <;> rw [hrv] at h
      · dsimp only at h
        simp at h
        subst h
        exact List.mem_cons_of_mem _ (ih hm)
      · rcases hbv : b0.velocity with _ | w <;> rw [hbv] at h <;> dsimp only at h
        · simp at h
          subst h
          exact List.mem_cons_self _ _
        · by_cases hvw : v < w
          · rw [if_pos hvw] at h
            simp at h
            subst h
            exact List.mem_cons_of_mem _ (ih hm)
          · rw [if_neg hvw] at h
            simp at h
            subst h
            exact List.mem_cons_self _ _

/-- The selected peak row carries a present velocity. -/
theorem idxmaxVel_velocity_isSome {l : List Row} {b : Row}
    (h : idxmaxVel l = some b) : (b.velocity).isSome = true := by
  induction l with
  | nil => simp [idxmaxVel] at h
  | cons r rs ih =>
    rw [idxmaxVel] at h
    rcases hm : idxmaxVel rs with _ | b0 <;> rw [hm] at h <;> dsimp only at h
    · rcases hrv : r.velocity with _ | v <;> rw [hrv] at h
      · simp at h
      · simp at h
        subst h
        rw [hrv]
        rfl
    · rcases hrv : r.velocity with _ | v <;> rw [hrv] at h
      · dsimp only at h
        simp at h
        subst h
        exact ih hm
      · rcases hbv : b0.velocity with _ | w <;> rw [hbv] at h <;> dsimp only at h
        · simp at h
          subst h
          rw [hrv]
          rfl
        · by_cases hvw : v < w
          · rw [if_pos hvw] at h
            simp at h
            subst h
            exact ih hm
          · rw [if_neg hvw] at h
            simp at h
            subst h
            rw [hrv]
            rfl

/-- The selected peak row attains the maximum present velocity of the
group. -/
theorem idxmaxVel_max : ∀ (l : List Row) (b : Row), idxmaxVel l = some b →
    ∀ r ∈ l, ∀ v w, r.velocity = some v → b.velocity = some w → v ≤ w := by
  intro l
  induction l with
  | nil => intro b h; simp [idxmaxVel] at h
  | cons r rs ih =>
    intro b h x hx v w hxv hbw
    rw [idxmaxVel] at h
    rcases hm : idxmaxVel rs with _ | b0 <;> rw [hm] at h <;> dsimp only at h
    · rcases hrv : r.velocity with _ | v0 <;> rw [hrv] at h
      · simp at h
      · simp at h
        subst h
        rcases List.mem_cons.mp hx with h2 | h2
        · rw [h2, hrv] at hxv
          rw [hrv] at hbw
          rw [← Option.some.inj hxv, ← Option.some.inj hbw]
        · have h3 := idxmaxVel_eq_none hm x h2
          rw [h3] at hxv
          exact absurd hxv (by simp)
    · rcases hrv : r.velocity with _ | v0 <;> rw [hrv] at h
      · dsimp only at h
        simp at h
        subst h
        rcases List.mem_cons.mp hx with h2 | h2
        · rw [h2, hrv] at hxv
          exact absurd hxv (by simp)
        · exact ih b0 hm x h2 v w hxv hbw
      · rcases hbv : b0.velocity with _ | w0 <;> rw [hbv] at h <;> dsimp only at h
        · have h4 := idxmaxVel_velocity_isSome hm
          rw [hbv] at h4
          simp at h4
        · by_cases hvw : v0 < w0
          · rw [if_pos hvw] at h
            simp at h
            subst h
            rw [hbv] at hbw
            have hww0 : w = w0 := (Option.some.inj hbw).symm
            subst hww0
            rcases List.mem_cons.mp hx with h2 | h2
            · rw [h2, hrv] at hxv
              rw [← Option.some.inj hxv]
              exact le_of_lt hvw
            · exact ih b0 hm x h2 v w hxv hbv
          · rw [if_neg hvw] at h
            simp at h
            subst h
            rw [hrv] at hbw
            have hwv0 : w = v0 := (Option.some.inj hbw).symm
            subst hwv0
            rcases List.mem_cons.mp hx with h2 | h2
            · rw [h2, hrv] at hxv
              rw [← Option.some.inj hxv]
            · have hle := ih b0 hm x h2 v w0 hxv hbv
              exact le_trans hle (le_of_not_lt hvw)

/-- On a group sorted by pitch number, `idxmax` selects — among the
rows attaining the peak velocity — the one with the smallest pitch
number (it returns the first maximal position). -/
theorem idxmaxVel_first : ∀ (l : List Row), l.Sorted pnLe →
    ∀ (b : Row), idxmaxVel l = some b →
    ∀ r ∈ l, r.velocity = b.velocity → pnKey b ≤ pnKey r := by
  intro l
  induction l with
  | nil => intro _ b h; simp [idxmaxVel] at h
  | cons r rs ih =>
    intro hs b h x hx hxv
    obtain ⟨hhead, hs2⟩ := List.sorted_cons.mp hs
    rw [idxmaxVel] at h
    rcases hm : idxmaxVel rs with _ | b0 <;> rw [hm] at h <;> dsimp only at h
    · rcases hrv : r.velocity with _ | v0 <;> rw [hrv] at h
      · simp at h
      · simp at h
        subst h
        rcases List.mem_cons.mp hx with h2 | h2
        · rw [h2]
        · exact hhead x h2
    · rcases hrv : r.velocity with _ | v0 <;> rw [hrv] at h
      · dsimp only at h
        simp at h
        subst h
        rcases List.mem_cons.mp hx with h2 | h2
        · have hbs := idxmaxVel_velocity_isSome hm
          rw [← hxv, h2, hrv] at hbs
          simp at hbs
        · exact ih hs2 b0 hm x h2 hxv
      · rcases hbv : b0.velocity with _ | w0 <;> rw [hbv] at h <;> dsimp only at h
        · have h4 := idxmaxVel_velocity_isSome hm
          rw [hbv] at h4
          simp at h4
        · by_cases hvw : v0 < w0
          · rw [if_pos hvw] at h
            simp at h
            subst h
            rcases List.mem_cons.mp hx with h2 | h2
            · rw [h2, hrv] at hxv
              rw [hbv] at hxv
              have h5 : v0 = w0 := Option.some.inj hxv
              rw [h5] at hvw
              exact absurd hvw (lt_irrefl w0)
            · exact ih hs2 b0 hm x h2 hxv
          · rw [if_neg hvw] at h
            simp at h
            subst h
            rcases List.mem_cons.mp hx with h2 | h2
            · rw [h2]
            · exact hhead x h2

/-- C9.  For every (date, pitch-type) group with at least one row —
all rows carrying present velocities and pitch numbers, as they do at
this point of the dashboard, downstream of the velocity filter and the
default date filter — the peak-pitch selection returns a row of the
group attaining the maximum velocity, and among rows tied at that
maximum it returns the one with the smallest `pitch_number_in_day`. -/
theorem C9_peak_pitch_max_and_tie_break (t : List Row) (d ty : String)
    (hne : dayTypeGroup t d ty ≠ [])
    (hv : ∀ r ∈ dayTypeGroup t d ty, (r.velocity).isSome = true)
    (hpn : ∀ r ∈ dayTypeGroup t d ty, (r.pitchNumber).isSome = true) :
    ∃ b, peakPitch t d ty = some b ∧ b ∈ dayTypeGroup t d ty ∧
      (∀ r ∈ dayTypeGroup t d ty, ∀ v w,
        r.velocity = some v → b.velocity = some w → v ≤ w) ∧
      (∀ r ∈ dayTypeGroup t d ty, r.velocity = b.velocity →
        (b.pitchNumber).getD 0 ≤ (r.pitchNumber).getD 0) := by
  have hsorted : (dayTypeGroup t d ty).Sorted pnLe :=
    List.sorted_insertionSort pnLe _
  obtain ⟨r0, hr0⟩ := List.exists_mem_of_ne_nil _ hne
  have hsome : idxmaxVel (dayTypeGroup t d ty) ≠ none := by
    intro hnone
    have h1 := idxmaxVel_eq_none hnone r0 hr0
    have h2 := hv r0 hr0
    rw [h1] at h2
    simp at h2
  obtain ⟨b, hpk⟩ := Option.ne_none_iff_exists'.mp hsome
  refine ⟨b, ?_, idxmaxVel_mem hpk, idxmaxVel_max _ b hpk, ?_⟩
  · rw [peakPitch]
    exact hpk
  · intro r hr hrv
    exact idxmaxVel_first _ hsorted b hpk r hr hrv

/-! ### C8: grouped mean / std / max, rounded -/

/-- Rounding a rational that is already an integer multiple changes
nothing: the half-to-even tie rule never fires on an integer. -/
theorem roundEvenQ_int (n : Int) : roundEvenQ (n : Rat) = n := by
  rw [roundEvenQ, if_neg] <;> simp [Int.fract_intCast]

/-- `round1q` on a value with one decimal digit: read off the integer
numerator of tenths. -/
theorem round1q_of_int (x : Rat) (n : Int) (h : 10 * x = (n : Rat)) :
    round1q x = (n : Rat) / 10 := by
  rw [round1q, h, roundEvenQ_int]

/-- `numpy.round` of `10 * sqrt(8)` (the sample standard deviation of
`[90, 94]` scaled by ten): `2.8284... * 10` rounds to `28`, the tie
rule does not fire. -/
theorem roundEvenR_sqrt8 : roundEvenR (10 * Real.sqrt 8) = 28 := by
  have h0 : (0 : Real) ≤ 8 := by norm_num
  have hlb : (14 : Real) / 5 ≤ Real.sqrt 8 := by
    rw [Real.le_sqrt (by norm_num) h0]; norm_num
  have hub : Real.sqrt 8 < 57 / 20 := by
    rw [Real.sqrt_lt' (by norm_num)]; norm_num
  have hs : Real.sqrt 8 ^ 2 = 8 := Real.sq_sqrt h0
  have hfl : ⌊(10 : Real) * Real.sqrt 8⌋ = 28 := by
    rw [Int.floor_eq_iff]
    constructor
    · push_cast; nlinarith
    · push_cast; nlinarith
  have hfr : Int.fract ((10 : Real) * Real.sqrt 8) ≠ 1 / 2 := by
    rw [Int.fract, hfl]
    intro hcontra
    have h2 : (10 : Real) * Real.sqrt 8 = 57 / 2 := by push_cast at hcontra; linarith
    nlinarith
  unfold roundEvenR
  rw [if_neg hfr, round_eq, Int.floor_eq_iff]
  constructor
  · push_cast; nlinarith
  · push_cast; nlinarith

/-- The aggregation vector of the specification (section 8): rows
`[{type: FB, v: 90}, {type: FB, v: 94}, {type: CB, v: 78}]`. -/
def specExampleTable : List Row :=
  [⟨⟨some "1/1/25", some "FB", some 90, none, none⟩, some 1⟩,
   ⟨⟨some "1/1/25", some "FB", some 94, none, none⟩, some 2⟩,
   ⟨⟨some "1/1/25", some "CB", some 78, none, none⟩, some 3⟩]

/-- C8.  The per-pitch-type group statistics are the mean, the sample
standard deviation and the max of the present metric values, each
rounded to one decimal place, and the standard deviation of a
single-row group is missing — neither zero nor an error.  On the
specification's own vector this computes FB: mean 92.0, std 2.8
(`sqrt 8` rounded), max 94.0; CB: mean 78.0, std missing, max 78.0. -/
theorem C8_group_stats_rounded (t : List Row) (metric : Row → Option Rat)
    (ty : String) (h1 : (groupRows t ty).length = 1) :
    aggStd (groupVals metric t ty) = none
    ∧ aggMean (groupVals velOf specExampleTable "FB") = some 92
    ∧ aggStd (groupVals velOf specExampleTable "FB") = some ((14 : Real) / 5)
    ∧ aggMax (groupVals velOf specExampleTable "FB") = some 94
    ∧ aggMean (groupVals velOf specExampleTable "CB") = some 78
    ∧ aggStd (groupVals velOf specExampleTable "CB") = none
    ∧ aggMax (groupVals velOf specExampleTable "CB") = some 78 := by
  have hFB : groupVals velOf specExampleTable "FB" = [90, 94] := by decide
  have hCB : groupVals velOf specExampleTable "CB" = [78] := by decide
  refine ⟨?_, ?_, ?_, ?_, ?_, ?_, ?_⟩
  · rw [aggStd, if_pos]
    calc (groupVals metric t ty).length
        ≤ (groupRows t ty).length := List.length_filterMap_le _ _
      _ = 1 := h1
  · rw [hFB, aggMean, if_neg (by norm_num)]
    have hs : ([(90 : Rat), 94].sum / (([(90 : Rat), 94].length : Nat) : Rat)) = 92 := by
      norm_num
    rw [hs, round1q_of_int 92 920 (by norm_num)]
    norm_num
  · rw [hFB, aggStd, if_neg (by norm_num)]
    have hvar : sampleVar [(90 : Rat), 94] = 8 := by rw [sampleVar]; norm_num
    rw [hvar]
    have h8 : (((8 : Rat)) : Real) = 8 := by norm_num
    rw [h8, round1r, roundEvenR_sqrt8]
    norm_num
  · rw [hFB, aggMax]
    have hm : [(90 : Rat), 94].max? = some 94 := by
      rw [List.max?]
      simp [List.foldl, max_def]
      norm_num
    rw [hm]
    rw [Option.map_some']
    rw [round1q_of_int 94 940 (by norm_num)]
    norm_num
  · rw [hCB, aggMean, if_neg (by norm_num)]
    have hs : ([(78 : Rat)].sum / (([(78 : Rat)].length : Nat) : Rat)) = 78 := by
      norm_num
    rw [hs, round1q_of_int 78 780 (by norm_num)]
    norm_num
  · rw [hCB, aggStd, if_pos (by norm_num)]
  · rw [hCB, aggMax]
    have hm : [(78 : Rat)].max? = some 78 := by rw [List.max?]; rfl
    rw [hm]
    rw [Option.map_some']
    rw [round1q_of_int 78 780 (by norm_num)]
    norm_num

/-! ### Concrete instances: counterexamples and witnesses -/

deriving instance DecidableEq for Except

/-- A concrete stand-in for the external tolerant date
parser-formatter at the inputs used below: `"ok"` parses, `"bad"` does
not. -/
def parseEx : String → Option String :=
  fun s => if s = "ok" then some "1/1/25" else none

/-- A concrete stand-in for `pd.to_numeric` at the inputs used below. -/
def pnumEx : String → Option Rat :=
  fun s =>
    if s = "90" then some 90
    else if s = "94" then some 94
    else if s = "100" then some 100
    else if s = "78" then some 78
    else none

/-- C1 failing input: all eighteen required columns are present, but
`"Is Strike"` (position 3) is empty on every row. -/
def c1RawRow : List (Option String) :=
  [some "1", some "10/7/2025", some "FB", none, some "0.5", some "2.1",
   some "90.2", some "2100", some "95", some "180", some "10.1", some "15.2",
   some "1.0", some "2.0", some "5.8", some "1.2", some "20", some "6.1"]

/-- C1 failing input as a raw table. -/
def c1RawTable : RawTable := ⟨requiredColumns, [c1RawRow]⟩

/-- C1.  On an input that has all eighteen required column names but
one required column entirely empty, `dropna(axis=1, how="all")`
removes that column and the fixed eighteen-column projection then
raises `KeyError`: load/normalization fails instead of continuing with
an all-missing column, contradicting the specification. -/
theorem C1_all_empty_required_column_raises :
    loadProject c1RawTable = .error "KeyError: required columns not in index" := by
  decide

/-- C2 input: a one-row table whose single pitch type is `"FB"`. -/
def c2Table : List Row :=
  [⟨⟨some "1/1/25", some "FB", some 90, none, none⟩, some 1⟩]

/-- C2.  Filtering to a pitch-type set with no matches — here the
empty selection a user gets by deselecting every type in the
multiselect, and likewise any set disjoint from the table's types —
does return an empty table, and the group summary of that empty table
is an empty (no-data) summary; but the velocity-slider bound
computation on the empty filtered table takes `int(NaN)` and raises
`ValueError`, so the filter/aggregate path of the dashboard does
raise, contradicting the specification. -/
theorem C2_empty_type_filter_bound_raises :
    applyTypeFilter [] c2Table = []
    ∧ velocityStep (applyTypeFilter [] c2Table)
        = .error "ValueError: cannot convert float NaN to integer"
    ∧ typeKeys (applyTypeFilter [] c2Table) = []
    ∧ applyTypeFilter ["CB"] c2Table = []
    ∧ velocityStep (applyTypeFilter ["CB"] c2Table)
        = .error "ValueError: cannot convert float NaN to integer" := by
  decide

/-- The rational `94.7`, in normal form so that kernel evaluation does
not need to normalize a fraction. -/
def v947 : Rat := ⟨947, 10, by norm_num, by norm_num⟩

/-- C3 counterexample input: a single row of velocity `94.7` MPH. -/
def c3Table : List Row :=
  [⟨⟨some "1/1/25", some "FB", some v947, none, none⟩, some 1⟩]

/-- C3 second input: one `FB` pitch at 90 and one `CB` pitch at 100. -/
def c3PairTable : List Row :=
  [⟨⟨some "1/1/25", some "FB", some 90, none, none⟩, some 1⟩,
   ⟨⟨some "1/1/25", some "CB", some 100, none, none⟩, some 2⟩]

/-- C3 counterexample.  The slider bounds are `int`-truncations of the
current view's min/max: on a table whose only velocity is `94.7` the
proposed default range is `[94, 94]`, and the default filter empties
the table — the default range does not cover every row's velocity.
Moreover the bounds react to pitch-type narrowing, so they are derived
from the filtered view, not from the unfiltered canonical table. -/
theorem C3_default_range_not_covering_cex :
    velocityBounds c3Table = some (94, 94)
    ∧ velocityStep c3Table = .ok []
    ∧ c3Table ≠ []
    ∧ velocityBounds c3PairTable = some (90, 100)
    ∧ velocityBounds (applyTypeFilter ["FB"] c3PairTable) = some (90, 90) := by
  decide

/-- C4 input rows: one row with a parseable date and velocity 90, one
row with an unparseable date and velocity 100, both of type `FB`. -/
def c4Rows : List Row0 :=
  [⟨some "ok", some "FB", some "90", none, none⟩,
   ⟨some "bad", some "FB", some "100", none, none⟩]

/-- The normalized table of `c4Rows`. -/
def c4Table : List Row := normalizeRows parseEx pnumEx c4Rows

/-- C4 counterexample.  The missing-date row survives normalization,
but the default date filter (which runs because one date parsed) drops
it from the working table; the pitch-type-only velocity summary is
computed from that working table, so the missing-date record does not
contribute to it: its group values are `[90]`, not `[90, 100]`. -/
theorem C4_missing_date_dropped_from_type_summary_cex :
    c4Table.map (fun r => (r.date, r.velocity, r.pitchNumber))
      = [(some "1/1/25", some 90, some 1), (none, some 100, none)]
    ∧ applyDateDefault c4Table
      = [⟨⟨some "1/1/25", some "FB", some 90, none, none⟩, some 1⟩]
    ∧ groupVals velOf (applyDateDefault c4Table) "FB" = [90]
    ∧ groupVals velOf c4Table "FB" = [90, 100] := by
  decide

/-- C4 witness input check: the kept row of the filtered view. -/
theorem C4_missing_date_excluded_witness :
    ((⟨⟨some "1/1/25", some "FB", some 90, none, none⟩, some 1⟩ : Row).date ≠ none) :=
  C4_missing_date_excluded_from_view c4Table _ (by decide) (by decide)

/-- C5 input: a single row whose date does not parse. -/
def c5Rows : List Row0 := [⟨some "bad", some "FB", none, none, none⟩]

/-- The missing-date raw record of `c5Rows`. -/
def c5Row : Row0 := ⟨some "bad", some "FB", none, none, none⟩

/-- C5 counterexample.  The missing-date row is kept by normalization
but its `pitch_number_in_day` is missing, not the integer `1`. -/
theorem C5_missing_date_pn_missing_cex :
    (normalizeRows parseEx pnumEx c5Rows).map (fun r => (r.date, r.pitchNumber))
      = [(none, none)]
    ∧ (normalizeRows parseEx pnumEx c5Rows).map (fun r => r.pitchNumber)
      ≠ [some 1] := by
  decide

/-- C5 witness: the amended statement applied to the concrete
missing-date input. -/
theorem C5_missing_date_witness :
    ∃ r ∈ normalizeRows parseEx pnumEx c5Rows,
      r.toRowC = numCoerce pnumEx (dateCoerce parseEx c5Row) ∧ r.pitchNumber = none :=
  C5_missing_date_row_kept_pn_missing parseEx pnumEx c5Rows c5Row
    (by decide) (by decide) (by decide)

/-- C7 input: one row with an empty-string pitch type and one row with
the placeholder `"-"`. -/
def c7Rows : List Row0 :=
  [⟨some "ok", some "", some "90", none, none⟩,
   ⟨some "ok", some "-", some "90", none, none⟩]

/-- C7 counterexample.  The placeholder row is excluded, but the row
whose pitch type is the empty string survives into the canonical
table, contradicting the claim that no empty (or missing) pitch type
remains. -/
theorem C7_empty_pitch_type_retained_cex :
    (normalizeRows parseEx pnumEx c7Rows).map (fun r => r.pitchType) = [some ""] := by
  decide

/-- C7 witness: the placeholder-exclusion theorem at the concrete
surviving row. -/
theorem C7_placeholder_excluded_witness :
    ((⟨⟨some "1/1/25", some "", some 90, none, none⟩, some 1⟩ : Row).pitchType
      ≠ some "-") :=
  C7_placeholder_rows_excluded parseEx pnumEx c7Rows _ (by decide)

/-- C3 witness: the amended inclusive-truncated-bounds statement at
the two-pitch table, for the `FB` row of velocity 90 under the default
bounds `[90, 100]`. -/
theorem C3_velocity_filter_witness :
    (((90 : Int) : Rat) ≤ (90 : Rat))
    ∧ ((⟨⟨some "1/1/25", some "FB", some 90, none, none⟩, some 1⟩ : Row)
          ∈ filterVelocity ((90 : Int) : Rat) ((100 : Int) : Rat) c3PairTable
        ↔ (90 : Rat) ≤ ((100 : Int) : Rat)) :=
  C3_velocity_filter_inclusive_truncated c3PairTable 90 100
    ⟨⟨some "1/1/25", some "FB", some 90, none, none⟩, some 1⟩ 90
    (by decide)
    (by
      intro r0 hr0 v0 hv0
      fin_cases hr0 <;> simp_all <;> rw [← hv0] <;> norm_num)
    (by decide) (by decide)

/-- C8 witness: the group-statistics statement at the specification's
own aggregation vector, instantiated at the single-row `CB` group. -/
theorem C8_group_stats_witness :
    (groupRows specExampleTable "CB").length = 1
    ∧ (aggStd (groupVals velOf specExampleTable "CB") = none
      ∧ aggMean (groupVals velOf specExampleTable "FB") = some 92
      ∧ aggStd (groupVals velOf specExampleTable "FB") = some ((14 : Real) / 5)
      ∧ aggMax (groupVals velOf specExampleTable "FB") = some 94
      ∧ aggMean (groupVals velOf specExampleTable "CB") = some 78
      ∧ aggStd (groupVals velOf specExampleTable "CB") = none
      ∧ aggMax (groupVals velOf specExampleTable "CB") = some 78) :=
  ⟨by decide, C8_group_stats_rounded specExampleTable velOf "CB" (by decide)⟩

/-- C9 input: two `FB` pitches tied at 94 MPH with pitch numbers 2 and
1, and a slower pitch, all on the same date. -/
def c9Table : List Row :=
  [⟨⟨some "1/1/25", some "FB", some 94, none, none⟩, some 2⟩,
   ⟨⟨some "1/1/25", some "FB", some 94, none, none⟩, some 1⟩,
   ⟨⟨some "1/1/25", some "FB", some 90, none, none⟩, some 3⟩]

/-- C9 witness: the peak-pitch statement at a concrete group with a
velocity tie; the selection picks the tied row with the smaller pitch
number. -/
theorem C9_peak_pitch_witness :
    (dayTypeGroup c9Table "1/1/25" "FB" ≠ [])
    ∧ (∀ r ∈ dayTypeGroup c9Table "1/1/25" "FB", (r.velocity).isSome = true)
    ∧ (∀ r ∈ dayTypeGroup c9Table "1/1/25" "FB", (r.pitchNumber).isSome = true)
    ∧ peakPitch c9Table "1/1/25" "FB"
        = some ⟨⟨some "1/1/25", some "FB", some 94, none, none⟩, some 1⟩
    ∧ (∃ b, peakPitch c9Table "1/1/25" "FB" = some b
        ∧ b ∈ dayTypeGroup c9Table "1/1/25" "FB"
        ∧ (∀ r ∈ dayTypeGroup c9Table "1/1/25" "FB", ∀ v w,
            r.velocity = some v → b.velocity = some w → v ≤ w)
        ∧ (∀ r ∈ dayTypeGroup c9Table "1/1/25" "FB", r.velocity = b.velocity →
            (b.pitchNumber).getD 0 ≤ (r.pitchNumber).getD 0)) :=
  ⟨by decide, by decide, by decide, by decide,
   C9_peak_pitch_max_and_tie_break c9Table "1/1/25" "FB"
     (by decide) (by decide) (by decide)⟩

/-- C10 input: a missing-velocity row next to a 90 MPH row. -/
def c10Table : List Row :=
  [⟨⟨some "1/1/25", some "FB", none, none, none⟩, some 1⟩,
   ⟨⟨some "1/1/25", some "FB", some 90, none, none⟩, some 2⟩]

/-- C10 witness: with bounds `[90, 90]` equal to the table's own
present minimum and maximum, the filter still drops the
missing-velocity row, so it is not a no-op. -/
theorem C10_velocity_filter_witness :
    (∃ r ∈ c10Table, r.velocity = none)
    ∧ ((∀ r ∈ filterVelocity 90 90 c10Table, r.velocity ≠ none)
      ∧ filterVelocity 90 90 c10Table ≠ c10Table) :=
  ⟨by decide, C10_velocity_filter_drops_missing 90 90 c10Table (by decide)⟩
